import Mathlib

/-!
Verification of the `@zahoor/fastify-storage` registration shim.

The repository is a thin shim wiring the external `unstorage` engine into
fastify: a single `plugin` function that creates one storage instance,
decorates the server and every request with three capabilities
(`storage`, `storagePrefix`, `storageSnapshot`), and registers one
`onClose` hook performing `try { close() } finally { unwatch; unmount-all;
dispose }`.

Three layers are modelled:
* an operational store model for the engine's key/value, prefix-view and
  snapshot/restore semantics (the engine itself is an external dependency,
  so these are modelled from the spec's description of its contract);
* an identity-level model of plugin registration (which decorations are
  attached where, and whether they reference the same storage instance);
* a trace model of the shutdown hook (which cleanup steps run, in which
  order, and which error propagates), translated from the hook's
  `try`/`finally` body in the source.
-/

namespace FastifyStorage

/-! ## Operational store model -/

/-- A storage state: an association list from string keys to values, most
recent binding first, with stale bindings erased on write. -/
abbrev Store (α : Type) : Type := List (String × α)

/-- Read a key: first matching binding, `none` when absent. -/
def getItem {α : Type} : Store α → String → Option α
  | [], _ => none
  | e :: rest, k => if e.1 = k then some e.2 else getItem rest k

/-- Remove every binding of a key. -/
def eraseKey {α : Type} : Store α → String → Store α
  | [], _ => []
  | e :: rest, k => if e.1 = k then eraseKey rest k else e :: eraseKey rest k

/-- Write a key: the new binding shadows and erases any previous one. -/
def setItem {α : Type} (s : Store α) (k : String) (v : α) : Store α :=
  (k, v) :: eraseKey s k

/-- The keys currently bound in a store. -/
def keysOf {α : Type} (s : Store α) : List String :=
  s.map Prod.fst

/-! ## Spec-modelled engine operations

The `unstorage` engine is an external dependency of the repository; only
its call sites appear in the source. The following definitions are
modelled from the spec's description of its contract. -/

/-- Boolean test that one character list starts with another. -/
def charsStartsWith : List Char → List Char → Bool
  | [], _ => true
  | _ :: _, [] => false
  | a :: as, b :: bs => a == b && charsStartsWith as bs

/-- Boolean test that string `p` starts string `k`. -/
def strStartsWith (p k : String) : Bool :=
  charsStartsWith p.data k.data

/-- The remainder of key `k` after its leading `p.length` characters. -/
def strDropLen (p k : String) : String :=
  String.mk (k.data.drop p.data.length)

/-- Modelled from the spec: the engine's `prefixStorage` view "transparently
prepends a fixed string to every key before delegating to the underlying
storage instance"; a write through the view under key `k` delegates to the
base store at key `p ++ k`. -/
def prefixedSetItem {α : Type} (s : Store α) (p k : String) (v : α) : Store α :=
  setItem s (p ++ k) v

/-- Modelled from the spec: a read through the engine's `prefixStorage` view
delegates to the base store at key `p ++ k`. -/
def prefixedGetItem {α : Type} (s : Store α) (p k : String) : Option α :=
  getItem s (p ++ k)

/-- A snapshot: the key/value pairs under a base path, keys relative to it. -/
abbrev Snapshot (α : Type) : Type := List (String × α)

/-- Modelled from the spec: the engine's `snapshot(storage, base)` captures
"all key/value pairs under a given base path", keys made relative to it. -/
def takeSnapshot {α : Type} : Store α → String → Snapshot α
  | [], _ => []
  | e :: rest, base =>
    if strStartsWith base e.1 then
      (strDropLen base e.1, e.2) :: takeSnapshot rest base
    else
      takeSnapshot rest base

/-- Modelled from the spec: restoring writes every captured pair back under
the target base path. -/
def restoreToBase {α : Type} : Store α → Snapshot α → String → Store α
  | s, [], _ => s
  | s, e :: rest, base => restoreToBase (setItem s (base ++ e.1) e.2) rest base

/-- Modelled from the spec: the engine's `restoreSnapshot(storage, snapshot,
base?)` takes an optional base and defaults an omitted base to the root
(empty) base path. The shim's `restore` forwards its optional base to this
function unchanged. -/
def restoreSnapshot {α : Type} (s : Store α) (snap : Snapshot α) : Option String → Store α
  | none => restoreToBase s snap ""
  | some base => restoreToBase s snap base

/-! ## Plugin registration model

Translated from the `plugin` function in the source: it calls the engine's
`createStorage(opts)` once, decorates the server and the request with the
three capabilities, and adds one `onClose` hook. Storage instances are
identified by a creation id so that "same underlying instance" is
expressible. -/

/-- A capability attached by the plugin, recording which storage instance
it closes over. -/
inductive Decoration where
  /-- The getter decoration `{ getter: () => storage }`: yields the storage instance itself. -/
  | storageGetter (sid : Nat)
  /-- The factory `createPrefixedStorage(storage)`: builds views over the instance. -/
  | prefixFactory (sid : Nat)
  /-- The tool `createSnapshotedStorage(storage)`: snapshot/restore over the instance. -/
  | snapshotTool (sid : Nat)
  deriving DecidableEq, Repr

/-- The host framework state the plugin can touch: named decorations on the
server object, named decorations on the request object, registered
`onClose` hooks (recorded by the storage id each closes over), and all
remaining host state, opaque to the plugin. -/
structure FastifyHost (σ : Type) where
  serverDecorations : List (String × Decoration)
  requestDecorations : List (String × Decoration)
  onCloseHooks : List Nat
  otherState : σ

/-- The three named capabilities the plugin attaches, in source order, all
referencing the one storage instance `sid`. -/
def pluginCapabilities (sid : Nat) : List (String × Decoration) :=
  [("storage", Decoration.storageGetter sid),
   ("storagePrefix", Decoration.prefixFactory sid),
   ("storageSnapshot", Decoration.snapshotTool sid)]

/-- Translated from the source's `plugin` function. `createResult` models the
engine's `createStorage(opts)` call, which either raises (synchronously,
before any decoration happens) or yields the single storage instance; on
success the plugin decorates server and request with the same three
capabilities and registers one `onClose` hook. -/
def plugin {σ : Type} (createResult : Except String Nat) (host : FastifyHost σ) :
    Except String (FastifyHost σ) :=
  match createResult with
  | .error e => .error e
  | .ok sid =>
    .ok { host with
          serverDecorations := host.serverDecorations ++ pluginCapabilities sid,
          requestDecorations := host.requestDecorations ++ pluginCapabilities sid,
          onCloseHooks := host.onCloseHooks ++ [sid] }

/-! ## Shutdown hook trace model

Translated from the hook body registered by the source:

  try { await opts.close?.(); }
  finally {
    await storage.unwatch();
    const mounts = storage.getMounts('');
    for (const { base } of mounts) { await storage.unmount(base, true); }
    await storage.dispose();
  }

Each engine call either succeeds or raises; the model records the calls
actually performed as a trace and computes the hook's outcome under
JavaScript `try`/`finally` semantics (an error raised inside `finally`
supersedes the original one). -/

/-- An observable step of the shutdown hook. -/
inductive CloseEvent where
  /-- The caller-supplied `close` callback was invoked. -/
  | closeCallback
  /-- The engine call `storage.unwatch()` was invoked. -/
  | unwatch
  /-- The engine call `storage.unmount(base, force)` was invoked. -/
  | unmountCall (base : String) (force : Bool)
  /-- The engine call `storage.dispose()` was invoked. -/
  | dispose
  deriving DecidableEq, Repr

/-- The behavior of the engine during shutdown: the outcome of each engine
call and the mounts `getMounts('')` enumerates at the root base. -/
structure CleanupEngine where
  unwatchResult : Except String Unit
  mounts : List String
  unmountResult : String → Except String Unit
  disposeResult : Except String Unit

/-- The `for (const { base } of mounts) await storage.unmount(base, true)`
loop: unmounts in order, stopping at (and raising) the first failure. -/
def runUnmounts (eng : CleanupEngine) : List String → List CloseEvent × Except String Unit
  | [] => ([], .ok ())
  | b :: rest =>
    match eng.unmountResult b with
    | .error e => ([CloseEvent.unmountCall b true], .error e)
    | .ok _ =>
      let r := runUnmounts eng rest
      (CloseEvent.unmountCall b true :: r.1, r.2)

/-- The `finally` block: `unwatch`, then the unmount loop over the mounts
enumerated at the root base, then `dispose`; a failing step prevents the
following steps from running and raises. -/
def runCleanup (eng : CleanupEngine) : List CloseEvent × Except String Unit :=
  match eng.unwatchResult with
  | .error e => ([CloseEvent.unwatch], .error e)
  | .ok _ =>
    let r := runUnmounts eng eng.mounts
    match r.2 with
    | .error e => (CloseEvent.unwatch :: r.1, .error e)
    | .ok _ =>
      match eng.disposeResult with
      | .error e => (CloseEvent.unwatch :: r.1 ++ [CloseEvent.dispose], .error e)
      | .ok _ => (CloseEvent.unwatch :: r.1 ++ [CloseEvent.dispose], .ok ())

/-- The whole `onClose` hook. `closeCb` is `opts.close`: absent, or present
with the outcome of awaiting it (`opts.close?.()` only invokes it when
present). The cleanup of the `finally` block always runs; an error it
raises supersedes the callback's error, otherwise the callback's outcome
propagates. -/
def onCloseHook (closeCb : Option (Except String Unit)) (eng : CleanupEngine) :
    List CloseEvent × Except String Unit :=
  let closeTrace : List CloseEvent :=
    match closeCb with
    | none => []
    | some _ => [CloseEvent.closeCallback]
  let closeRes : Except String Unit :=
    match closeCb with
    | none => .ok ()
    | some r => r
  let c := runCleanup eng
  (closeTrace ++ c.1,
    match c.2 with
    | .error e => .error e
    | .ok _ => closeRes)

/-- A concrete engine behavior in which every cleanup step succeeds, with
two mounts enumerated at the root base; instantiates the shutdown
theorems. -/
def engAllOk : CleanupEngine :=
  ⟨.ok (), ["cache", "db"], fun _ => .ok (), .ok ()⟩

/-- A concrete engine behavior whose unmount calls fail; instantiates the
unmount-failure theorem. -/
def engUnmountFail : CleanupEngine :=
  ⟨.ok (), ["cache", "db"], fun _ => .error "unmount failed", .ok ()⟩

/-! ## Store lemmas -/

/-- Reading a key right after writing it yields the written value. -/
theorem getItem_setItem_self {α : Type} (s : Store α) (k : String) (v : α) :
    getItem (setItem s k v) k = some v := by
  simp [setItem, getItem]

/-- Erasing one key leaves reads of a different key unchanged. -/
theorem getItem_eraseKey_ne {α : Type} (s : Store α) (k k' : String) (h : k' ≠ k) :
    getItem (eraseKey s k) k' = getItem s k' := by
  induction s with
  | nil => rfl
  | cons e rest ih =>
    by_cases he : e.1 = k
    · simp [eraseKey, getItem, he, Ne.symm h, ih]
    · simp [eraseKey, getItem, he, ih]

/-- Writing one key leaves reads of a different key unchanged. -/
theorem getItem_setItem_ne {α : Type} (s : Store α) (k : String) (v : α) (k' : String)
    (h : k' ≠ k) : getItem (setItem s k v) k' = getItem s k' := by
  simp [setItem, getItem, Ne.symm h, getItem_eraseKey_ne s k k' h]

/-- A successful read exhibits a binding of the store. -/
theorem mem_of_getItem_some {α : Type} (s : Store α) (k : String) (v : α)
    (h : getItem s k = some v) : (k, v) ∈ s := by
  induction s with
  | nil => simp [getItem] at h
  | cons e rest ih =>
    rw [getItem] at h
    by_cases he : e.1 = k
    · rw [if_pos he] at h
      have h2 : e.2 = v := Option.some.inj h
      have he' : e = (k, v) := by
        obtain ⟨e1, e2⟩ := e
        simp only at he h2
        rw [he, h2]
      rw [he']
      exact List.mem_cons_self _ _
    · rw [if_neg he] at h
      exact List.mem_cons_of_mem e (ih h)

/-- Under distinct keys, a key determines its bound value. -/
theorem value_eq_of_nodup {α : Type} (k : String) (v v' : α) :
    ∀ s : Store α, (keysOf s).Nodup → (k, v) ∈ s → (k, v') ∈ s → v = v' := by
  intro s
  induction s with
  | nil => intro _ h1 _; cases h1
  | cons e rest ih =>
    intro hnd h1 h2
    rw [keysOf, List.map_cons, List.nodup_cons] at hnd
    obtain ⟨hne, hnd'⟩ := hnd
    rcases List.mem_cons.mp h1 with he1 | hm1 <;> rcases List.mem_cons.mp h2 with he2 | hm2
    · exact congrArg Prod.snd (he1.trans he2.symm)
    · exfalso
      apply hne
      have hk : e.1 = k := by rw [← he1]
      rw [hk]
      exact List.mem_map_of_mem Prod.fst hm2
    · exfalso
      apply hne
      have hk : e.1 = k := by rw [← he2]
      rw [hk]
      exact List.mem_map_of_mem Prod.fst hm1
    · exact ih hnd' hm1 hm2

/-! ## String lemmas -/

/-- A verified character-list test: appending back what the test dropped
reconstructs the original list. -/
theorem charsStartsWith_append_drop (p : List Char) :
    ∀ l, charsStartsWith p l = true → p ++ l.drop p.length = l := by
  induction p with
  | nil => intro l _; simp
  | cons a as ih =>
    intro l h
    cases l with
    | nil => simp [charsStartsWith] at h
    | cons b bs =>
      rw [charsStartsWith, Bool.and_eq_true] at h
      obtain ⟨h1, h2⟩ := h
      have ha : a = b := eq_of_beq h1
      subst ha
      simpa using ih bs h2

/-- Appending back what `strDropLen` dropped reconstructs the original key. -/
theorem strStartsWith_append_drop (p k : String) (h : strStartsWith p k = true) :
    p ++ strDropLen p k = k := by
  cases p with
  | mk pd =>
    cases k with
    | mk kd =>
      have hh : charsStartsWith pd kd = true := h
      exact congrArg String.mk (charsStartsWith_append_drop pd kd hh)

/-! ## Restore and snapshot lemmas -/

/-- Restoring pairs none of which land on key `k` leaves reads of `k` unchanged. -/
theorem getItem_restoreToBase_of_none {α : Type} (snap : Snapshot α) :
    ∀ (s : Store α) (base k : String), (∀ e ∈ snap, base ++ e.1 ≠ k) →
      getItem (restoreToBase s snap base) k = getItem s k := by
  induction snap with
  | nil => intro s base k _; rfl
  | cons a rest ih =>
    intro s base k h
    rw [restoreToBase]
    rw [ih _ _ _ (fun e he => h e (List.mem_cons_of_mem a he))]
    exact getItem_setItem_ne s (base ++ a.1) a.2 k (Ne.symm (h a (List.mem_cons_self a rest)))

/-- If some restored pair lands on key `k` and every pair landing on `k`
carries the value `v0`, then after the restore `k` reads as `v0`. -/
theorem getItem_restoreToBase_of_mem {α : Type} (snap : Snapshot α) :
    ∀ (s : Store α) (base k : String) (v0 : α),
      (∃ e ∈ snap, base ++ e.1 = k) →
      (∀ e ∈ snap, base ++ e.1 = k → e.2 = v0) →
      getItem (restoreToBase s snap base) k = some v0 := by
  induction snap with
  | nil =>
    intro s base k v0 hmem _
    obtain ⟨e, he, _⟩ := hmem
    exact absurd he (List.not_mem_nil e)
  | cons a rest ih =>
    intro s base k v0 hmem huniq
    rw [restoreToBase]
    by_cases hr : ∃ e ∈ rest, base ++ e.1 = k
    · exact ih _ _ _ _ hr (fun e he hk => huniq e (List.mem_cons_of_mem a he) hk)
    · have hah : base ++ a.1 = k := by
        obtain ⟨e, he, hk⟩ := hmem
        rcases List.mem_cons.mp he with rfl | hmm
        · exact hk
        · exact absurd ⟨e, hmm, hk⟩ hr
      have hav : a.2 = v0 := huniq a (List.mem_cons_self a rest) hah
      have hnone : ∀ e ∈ rest, base ++ e.1 ≠ k := fun e he hk => hr ⟨e, he, hk⟩
      rw [getItem_restoreToBase_of_none rest _ _ _ hnone, hah, hav]
      exact getItem_setItem_self s k v0

/-- A binding whose key lies under the base appears in the snapshot, with
its key made relative to the base. -/
theorem mem_takeSnapshot_of_mem {α : Type} (base k : String) (v : α) :
    ∀ s : Store α, strStartsWith base k = true → (k, v) ∈ s →
      (strDropLen base k, v) ∈ takeSnapshot s base := by
  intro s
  induction s with
  | nil => intro _ hm; cases hm
  | cons e rest ih =>
    intro hp hm
    rcases List.mem_cons.mp hm with rfl | hmem
    · rw [takeSnapshot, if_pos hp]
      exact List.mem_cons_self _ _
    · rw [takeSnapshot]
      by_cases hpe : strStartsWith base e.1 = true
      · rw [if_pos hpe]
        exact List.mem_cons_of_mem _ (ih hp hmem)
      · rw [if_neg hpe]
        exact ih hp hmem

/-- Every snapshot entry comes from a binding of the store whose key lies
under the base, the entry's key being that key made relative to the base. -/
theorem mem_takeSnapshot_elim {α : Type} (base : String) (e : String × α) :
    ∀ s : Store α, e ∈ takeSnapshot s base →
      ∃ k', (k', e.2) ∈ s ∧ strStartsWith base k' = true ∧ e.1 = strDropLen base k' := by
  intro s
  induction s with
  | nil => intro h; cases h
  | cons a rest ih =>
    intro h
    rw [takeSnapshot] at h
    by_cases hpe : strStartsWith base a.1 = true
    · rw [if_pos hpe] at h
      rcases List.mem_cons.mp h with heq | hmem
      · refine ⟨a.1, ?_, hpe, congrArg Prod.fst heq⟩
        rw [congrArg Prod.snd heq]
        exact (Prod.mk.eta (p := a)) ▸ List.mem_cons_self a rest
      · obtain ⟨k', h1, h2, h3⟩ := ih hmem
        exact ⟨k', List.mem_cons_of_mem a h1, h2, h3⟩
    · rw [if_neg hpe] at h
      obtain ⟨k', h1, h2, h3⟩ := ih h
      exact ⟨k', List.mem_cons_of_mem a h1, h2, h3⟩

/-! ## Cleanup trace lemmas -/

/-- When every unmount call succeeds, the unmount loop unmounts each mount
in order, with the force flag set, and succeeds. -/
theorem runUnmounts_all_ok (eng : CleanupEngine) :
    ∀ l : List String, (∀ b ∈ l, eng.unmountResult b = .ok ()) →
      runUnmounts eng l = (l.map (fun m => CloseEvent.unmountCall m true), .ok ()) := by
  intro l
  induction l with
  | nil => intro _; rfl
  | cons b rest ih =>
    intro h
    simp [runUnmounts, h b (List.mem_cons_self b rest),
      ih (fun x hx => h x (List.mem_cons_of_mem b hx))]

/-- When every cleanup step succeeds, the `finally` block runs `unwatch`,
then unmounts every enumerated mount in order with the force flag set,
then `dispose`, and succeeds. -/
theorem runCleanup_all_ok (eng : CleanupEngine)
    (hw : eng.unwatchResult = .ok ())
    (hm : ∀ b ∈ eng.mounts, eng.unmountResult b = .ok ())
    (hd : eng.disposeResult = .ok ()) :
    runCleanup eng =
      (CloseEvent.unwatch ::
        (eng.mounts.map (fun m => CloseEvent.unmountCall m true) ++ [CloseEvent.dispose]),
       .ok ()) := by
  simp [runCleanup, hw, hd, runUnmounts_all_ok eng eng.mounts hm]

/-- The unmount loop stops at the first failing mount: the mounts before it
are unmounted, the failing one is attempted, the rest are not, and the
failure is raised. -/
theorem runUnmounts_first_failure (eng : CleanupEngine) (b : String) (e2 : String) :
    ∀ pre post : List String,
      (∀ x ∈ pre, eng.unmountResult x = .ok ()) →
      eng.unmountResult b = .error e2 →
      runUnmounts eng (pre ++ b :: post) =
        (pre.map (fun m => CloseEvent.unmountCall m true) ++ [CloseEvent.unmountCall b true],
         .error e2) := by
  intro pre
  induction pre with
  | nil => intro post _ hb; simp [runUnmounts, hb]
  | cons x rest ih =>
    intro post h hb
    simp [runUnmounts, h x (List.mem_cons_self x rest),
      ih post (fun y hy => h y (List.mem_cons_of_mem x hy)) hb]

/-! ## Claim theorems -/

/-- C1: every registration attaches the three capabilities `storage`,
`storagePrefix` and `storageSnapshot` to both the server object and the
request object, and the attached entries are one and the same list
`added` on both sides — the storage handle, the view factory and the
snapshot tool all close over the single storage instance `sid` created
once at registration, not per-request copies. -/
theorem server_and_request_share_capabilities {σ : Type} (sid : Nat) (host : FastifyHost σ) :
    ∃ added : List (String × Decoration),
      plugin (.ok sid) host = .ok { host with
        serverDecorations := host.serverDecorations ++ added,
        requestDecorations := host.requestDecorations ++ added,
        onCloseHooks := host.onCloseHooks ++ [sid] } ∧
      added = pluginCapabilities sid ∧
      added.map Prod.fst = ["storage", "storagePrefix", "storageSnapshot"] :=
  ⟨pluginCapabilities sid, rfl, rfl, rfl⟩

/-- C2: for a store with distinct keys, taking a snapshot of base `B`,
mutating a key under `B` through the base storage, then restoring the
snapshot to `B` through the shim's `restore`, makes a subsequent read of
that key return its pre-mutation value. -/
theorem snapshot_restore_roundtrip {α : Type} (s0 : Store α) (B k : String) (v0 v1 : α)
    (hnd : (keysOf s0).Nodup)
    (hp : strStartsWith B k = true)
    (hg : getItem s0 k = some v0) :
    getItem (restoreSnapshot (setItem s0 k v1) (takeSnapshot s0 B) (some B)) k = some v0 := by
  show getItem (restoreToBase (setItem s0 k v1) (takeSnapshot s0 B) B) k = some v0
  have hmemS : (k, v0) ∈ s0 := mem_of_getItem_some s0 k v0 hg
  apply getItem_restoreToBase_of_mem
  · exact ⟨(strDropLen B k, v0), mem_takeSnapshot_of_mem B k v0 s0 hp hmemS,
      strStartsWith_append_drop B k hp⟩
  · intro e he hk
    obtain ⟨k', h1, h2, h3⟩ := mem_takeSnapshot_elim B e s0 he
    have hk' : k' = k := by
      have := strStartsWith_append_drop B k' h2
      rw [← h3] at this
      exact this.symm.trans hk
    rw [hk'] at h1
    exact value_eq_of_nodup k e.2 v0 s0 hnd h1 hmemS

/-- C2 witness: the roundtrip at a concrete store, base `users:` and key
`users:u1`: snapshot, overwrite `Alice` with `Bob`, restore, read `Alice`. -/
theorem snapshot_restore_roundtrip_witness :
    ((keysOf ([("users:u1", "Alice"), ("other", "x")] : Store String)).Nodup ∧
     strStartsWith "users:" "users:u1" = true ∧
     getItem ([("users:u1", "Alice"), ("other", "x")] : Store String) "users:u1" = some "Alice") ∧
    getItem
      (restoreSnapshot
        (setItem ([("users:u1", "Alice"), ("other", "x")] : Store String) "users:u1" "Bob")
        (takeSnapshot ([("users:u1", "Alice"), ("other", "x")] : Store String) "users:")
        (some "users:"))
      "users:u1" = some "Alice" :=
  ⟨⟨by decide, by decide, by decide⟩,
   snapshot_restore_roundtrip [("users:u1", "Alice"), ("other", "x")] "users:" "users:u1"
     "Alice" "Bob" (by decide) (by decide) (by decide)⟩

/-- C3: a write through the view obtained for `p` under key `k` is exactly a
write to the base storage at key `p ++ k` (plain concatenation, nothing
else), and is then readable through the base handle at `p ++ k`. -/
theorem prefixed_write_at_concatenated_key {α : Type} (s : Store α) (p k : String) (v : α) :
    prefixedSetItem s p k v = setItem s (p ++ k) v ∧
    getItem (prefixedSetItem s p k v) (p ++ k) = some v :=
  ⟨rfl, getItem_setItem_self s (p ++ k) v⟩

/-- C4: when the close callback fails and the cleanup steps themselves
succeed, the shutdown hook still performs the whole cleanup — `unwatch`,
every enumerated mount unmounted with the force flag, `dispose` — and the
callback's original error propagates out of the hook, not swallowed. -/
theorem close_error_propagates_after_full_cleanup (err : String) (eng : CleanupEngine)
    (hw : eng.unwatchResult = .ok ())
    (hm : ∀ b ∈ eng.mounts, eng.unmountResult b = .ok ())
    (hd : eng.disposeResult = .ok ()) :
    onCloseHook (some (.error err)) eng =
      (CloseEvent.closeCallback :: CloseEvent.unwatch ::
        (eng.mounts.map (fun m => CloseEvent.unmountCall m true) ++ [CloseEvent.dispose]),
       .error err) := by
  simp [onCloseHook, runCleanup_all_ok eng hw hm hd]

/-- C4 witness: the hook at a concrete all-succeeding engine and a failing
close callback: the full cleanup trace appears and the callback's error is
the hook's outcome. -/
theorem close_error_propagates_after_full_cleanup_witness :
    (engAllOk.unwatchResult = .ok () ∧
     (∀ b ∈ engAllOk.mounts, engAllOk.unmountResult b = .ok ()) ∧
     engAllOk.disposeResult = .ok ()) ∧
    onCloseHook (some (.error "close failed")) engAllOk =
      (CloseEvent.closeCallback :: CloseEvent.unwatch ::
        (engAllOk.mounts.map (fun m => CloseEvent.unmountCall m true) ++ [CloseEvent.dispose]),
       .error "close failed") :=
  ⟨⟨rfl, fun _ _ => rfl, rfl⟩,
   close_error_propagates_after_full_cleanup "close failed" engAllOk rfl (fun _ _ => rfl) rfl⟩

/-- C5: whatever the close callback's outcome, it completes strictly before
any cleanup step, and the cleanup steps run in the fixed order `unwatch`
first, then every mount enumerated at the root base unmounted with the
force flag in enumeration order, then `dispose` last; the callback's
outcome is then the hook's outcome. -/
theorem shutdown_fixed_order (cr : Except String Unit) (eng : CleanupEngine)
    (hw : eng.unwatchResult = .ok ())
    (hm : ∀ b ∈ eng.mounts, eng.unmountResult b = .ok ())
    (hd : eng.disposeResult = .ok ()) :
    onCloseHook (some cr) eng =
      (CloseEvent.closeCallback :: CloseEvent.unwatch ::
        (eng.mounts.map (fun m => CloseEvent.unmountCall m true) ++ [CloseEvent.dispose]),
       cr) := by
  simp [onCloseHook, runCleanup_all_ok eng hw hm hd]

/-- C5 witness: the hook at a concrete all-succeeding engine and a
succeeding close callback produces precisely the fixed-order trace. -/
theorem shutdown_fixed_order_witness :
    (engAllOk.unwatchResult = .ok () ∧
     (∀ b ∈ engAllOk.mounts, engAllOk.unmountResult b = .ok ()) ∧
     engAllOk.disposeResult = .ok ()) ∧
    onCloseHook (some (.ok ())) engAllOk =
      (CloseEvent.closeCallback :: CloseEvent.unwatch ::
        (engAllOk.mounts.map (fun m => CloseEvent.unmountCall m true) ++ [CloseEvent.dispose]),
       .ok ()) :=
  ⟨⟨rfl, fun _ _ => rfl, rfl⟩,
   shutdown_fixed_order (.ok ()) engAllOk rfl (fun _ _ => rfl) rfl⟩

/-- C6: registration fails with error `e` exactly when the engine's
instance-creation raised `e`: the failure is surfaced as-is at
registration time, and the shim introduces no failure of its own. -/
theorem registration_error_passthrough {σ : Type} (r : Except String Nat)
    (host : FastifyHost σ) (e : String) :
    plugin r host = .error e ↔ r = .error e := by
  cases r with
  | error e' => simp [plugin]
  | ok sid => simp [plugin]

/-- C7: the plugin's entire effect on the host is to append exactly the
three named capabilities to the server decorations, the same three to the
request decorations, and exactly one `onClose` hook; every other part of
the host state (`otherState` in particular) is left untouched by the
record update. -/
theorem plugin_effects_exactly {σ : Type} (sid : Nat) (host : FastifyHost σ) :
    plugin (.ok sid) host = .ok { host with
      serverDecorations := host.serverDecorations ++
        [("storage", Decoration.storageGetter sid),
         ("storagePrefix", Decoration.prefixFactory sid),
         ("storageSnapshot", Decoration.snapshotTool sid)],
      requestDecorations := host.requestDecorations ++
        [("storage", Decoration.storageGetter sid),
         ("storagePrefix", Decoration.prefixFactory sid),
         ("storageSnapshot", Decoration.snapshotTool sid)],
      onCloseHooks := host.onCloseHooks ++ [sid] } :=
  rfl

/-- C8: if during cleanup an unmount fails, the mounts after it in the
enumeration are not unmounted and `dispose` is not called, and that
cleanup error is the hook's outcome, superseding whatever outcome the
close callback had (including an error of its own). -/
theorem unmount_failure_supersedes_and_stops (cr : Except String Unit) (eng : CleanupEngine)
    (pre post : List String) (b e2 : String)
    (hmts : eng.mounts = pre ++ b :: post)
    (hw : eng.unwatchResult = .ok ())
    (hpre : ∀ x ∈ pre, eng.unmountResult x = .ok ())
    (hb : eng.unmountResult b = .error e2) :
    onCloseHook (some cr) eng =
      (CloseEvent.closeCallback :: CloseEvent.unwatch ::
        (pre.map (fun m => CloseEvent.unmountCall m true) ++ [CloseEvent.unmountCall b true]),
       .error e2) := by
  simp [onCloseHook, runCleanup, hw, hmts,
    runUnmounts_first_failure eng b e2 pre post hpre hb]

/-- C8 witness: at a concrete engine whose first mount fails to unmount and
a close callback that itself failed, the trace stops at the failing
unmount (no second mount, no dispose) and the unmount error replaces the
callback's error. -/
theorem unmount_failure_supersedes_and_stops_witness :
    (engUnmountFail.mounts = [] ++ "cache" :: ["db"] ∧
     engUnmountFail.unwatchResult = .ok () ∧
     (∀ x ∈ ([] : List String), engUnmountFail.unmountResult x = .ok ()) ∧
     engUnmountFail.unmountResult "cache" = .error "unmount failed") ∧
    onCloseHook (some (.error "close failed")) engUnmountFail =
      (CloseEvent.closeCallback :: CloseEvent.unwatch ::
        (([] : List String).map (fun m => CloseEvent.unmountCall m true) ++
          [CloseEvent.unmountCall "cache" true]),
       .error "unmount failed") :=
  ⟨⟨rfl, rfl, fun x hx => absurd hx (List.not_mem_nil x), rfl⟩,
   unmount_failure_supersedes_and_stops (.error "close failed") engUnmountFail
     [] ["db"] "cache" "unmount failed" rfl rfl
     (fun x hx => absurd hx (List.not_mem_nil x)) rfl⟩

/-- C9: restoring a snapshot with the base argument omitted restores into
the root base: it is the same operation as restoring with the empty base
path. -/
theorem restore_omitted_base_is_root {α : Type} (s : Store α) (snap : Snapshot α) :
    restoreSnapshot s snap none = restoreSnapshot s snap (some "") ∧
    restoreSnapshot s snap none = restoreToBase s snap "" :=
  ⟨rfl, rfl⟩

/-- C10: the view for the empty string behaves identically to the base
handle: its writes are the base handle's writes at the unmodified key, and
its reads are the base handle's reads at the unmodified key. -/
theorem empty_view_equals_base {α : Type} (s : Store α) (k : String) (v : α) :
    prefixedSetItem s "" k v = setItem s k v ∧
    prefixedGetItem s "" k = getItem s k := by
  have h : ("" ++ k) = k := by cases k; rfl
  exact ⟨by simp only [prefixedSetItem, h], by simp only [prefixedGetItem, h]⟩

end FastifyStorage
